import Mathlib

/-!
Shallow embedding of the BuiltWith API client (`builtwith_api.py`):
the Lists client (technology queries with pagination) and the Keywords
client (domain keyword lookups with batching), together with the shared
request-execution and response-interpretation logic.

The network is modelled as an explicit function from query parameters to an
HTTP response body; the client code under verification is everything that
happens around that call: parameter construction, local validation, response
interpretation, pagination and batching control flow, and result
normalization.
-/

namespace BuiltWith

/-- A JSON-like value, the shape of parsed response bodies and of the short
field-code records inside a page's `Results`. -/
inductive Val where
  | vint : Int → Val
  | vstr : String → Val
  | vbool : Bool → Val
  | vlist : List Val → Val
  | vdict : List (String × Val) → Val

/-- Exceptions raised by the client code. `valueError` models Python
`ValueError` (local validation failures); `builtWithAPIError` models
`BuiltWithAPIError` raised when a parsed body carries an `Errors` field
(the payload is that field's content); `requestFailed` models
`BuiltWithAPIError` wrapping a transport-level failure. -/
inductive Err where
  | valueError : String → Err
  | builtWithAPIError : Val → Err
  | requestFailed : String → Err

/-- Response formats accepted by the two endpoints. -/
inductive Format where
  | json | xml | txt | csv | tsv
deriving DecidableEq

/-- What `_make_request` returns on success: the parsed structure for the
json format, the raw body text for every other format. -/
inductive RespVal where
  | jsonVal : Val → RespVal
  | rawText : String → RespVal

/-- A successful HTTP GET response: the raw body text, and the outcome of
parsing the body as JSON (`none` when the body is not valid JSON, in which
case `response.json()` raises and the client wraps it as a request
failure). -/
structure HttpResponse where
  text : String
  jsonParse : Option Val

/-- First-match association-list lookup, the model of reading a key from a
Python dict built by successive distinct-key inserts. -/
def lookupKey {α : Type} : List (String × α) → String → Option α
  | [], _ => none
  | (k, v) :: rest, key => if k = key then some v else lookupKey rest key

theorem lookupKey_append {α : Type} (l₁ l₂ : List (String × α)) (key : String) :
    lookupKey (l₁ ++ l₂) key =
      match lookupKey l₁ key with
      | some v => some v
      | none => lookupKey l₂ key := by
  induction l₁ with
  | nil => rfl
  | cons kv rest ih =>
    obtain ⟨k, v⟩ := kv
    by_cases h : k = key <;> simp [lookupKey, h, ih]

/-- The shared `_make_request` body of both clients, after a successful GET
(both clients contain a verbatim copy of this logic). For the json format
the body is parsed; a parsed dict containing an `Errors` field raises
`BuiltWithAPIError` carrying that field's content, any other parse result is
returned; for every other format the raw body text is returned with no
inspection. -/
def make_request (fmt : Format) (resp : HttpResponse) : Except Err RespVal :=
  match fmt with
  | Format.json =>
    match resp.jsonParse with
    | none => Except.error (Err.requestFailed "Request failed: body is not valid JSON")
    | some data =>
      match data with
      | Val.vdict fields =>
        match lookupKey fields "Errors" with
        | some e => Except.error (Err.builtWithAPIError e)
        | none => Except.ok (RespVal.jsonVal (Val.vdict fields))
      | v => Except.ok (RespVal.jsonVal v)
  | _ => Except.ok (RespVal.rawText resp.text)

theorem make_request_no_valueError (fmt : Format) (resp : HttpResponse) (m : String) :
    make_request fmt resp ≠ Except.error (Err.valueError m) := by
  cases fmt <;> simp only [make_request] <;>
    first
    | (intro h; exact Except.noConfusion h)
    | (cases hp : resp.jsonParse with
       | none => intro h; injection h with h; exact Err.noConfusion h
       | some data =>
         cases data <;> simp only []
         case vdict fields =>
           cases he : lookupKey fields "Errors" <;> simp only [] <;> intro h
           · exact Except.noConfusion h
           · injection h with h; exact Err.noConfusion h
         all_goals (intro h; exact Except.noConfusion h))

/-- The country argument of `get_tech_list`: a single ISO code or a list of
codes. -/
inductive CountryArg where
  | one : String → CountryArg
  | many : List String → CountryArg

/-- The `META=yes` parameter, present exactly when `include_meta` is true. -/
def metaParam (includeMeta : Bool) : List (String × String) :=
  if includeMeta then [("META", "yes")] else []

/-- The `COUNTRY` parameter. Mirrors `if country:` followed by the
isinstance branch: a falsy country (empty string or empty list) is omitted,
a list is comma-joined, a single code is sent as-is. -/
def countryParam : Option CountryArg → List (String × String)
  | none => []
  | some (CountryArg.one c) => if c = "" then [] else [("COUNTRY", c)]
  | some (CountryArg.many cs) =>
    if cs = [] then [] else [("COUNTRY", String.intercalate "," cs)]

/-- The `OFFSET` parameter. Mirrors `if offset:`: a falsy (empty) offset is
omitted. -/
def offsetParam : Option String → List (String × String)
  | none => []
  | some o => if o = "" then [] else [("OFFSET", o)]

/-- The `ALL=yes` parameter, present exactly when `include_all` is true. -/
def allParam (includeAll : Bool) : List (String × String) :=
  if includeAll then [("ALL", "yes")] else []

/-- The expression `technology.replace(" ", "-")`: every space character of
the technology name becomes a hyphen (a single-character replacement, so a
character-wise map is exact). -/
def hyphenate (s : String) : String :=
  ⟨s.data.map (fun c => if c = ' ' then '-' else c)⟩

/-- The query-parameter construction of `get_tech_list`, up to the point
where `_make_request` is invoked. Spaces in the technology name are
replaced by hyphens. Mirrors `if since:` followed by `if include_all:
raise ValueError(...)`: the mutual-exclusion check fires only when the
since value is truthy (non-empty), and on the error path no parameters are
produced and no request is made. -/
def buildTechParams (key tech : String) (includeMeta : Bool)
    (country : Option CountryArg) (offset : Option String)
    (since : Option String) (includeAll : Bool) :
    Except Err (List (String × String)) :=
  let base := [("KEY", key), ("TECH", hyphenate tech)] ++
    metaParam includeMeta ++ countryParam country ++ offsetParam offset
  match since with
  | some s =>
    if s = "" then Except.ok (base ++ allParam includeAll)
    else if includeAll then
      Except.error (Err.valueError "Cannot use since parameter with include_all=True")
    else Except.ok (base ++ [("SINCE", s)] ++ allParam includeAll)
  | none => Except.ok (base ++ allParam includeAll)

/-- `get_tech_list`: build the parameters (possibly failing locally, before
any network access), then perform the GET (modelled by `http`) and
interpret the response with the shared `_make_request` logic. -/
def get_tech_list (key : String)
    (http : List (String × String) → HttpResponse) (tech : String)
    (includeMeta : Bool) (country : Option CountryArg)
    (offset : Option String) (since : Option String) (includeAll : Bool)
    (fmt : Format) : Except Err RespVal :=
  match buildTechParams key tech includeMeta country offset since includeAll with
  | Except.error e => Except.error e
  | Except.ok ps => make_request fmt (http ps)

/-- One page of Lists-API results as consumed by the pagination loop:
the continuation token read by `result.get("NextOffset")` (`none` when the
field is absent) and the records read by `page.get("Results", [])` (absence
collapses to the empty list, matching the default). -/
structure Page where
  nextOffset : Option String
  results : List Val

/-- The loop-exit test `not next_offset or next_offset == "END"`: true for
an absent token, the falsy empty string, or the sentinel. -/
def stopToken : Option String → Bool
  | none => true
  | some s => s = "" || s = "END"

/-- The pre-fetch cap test `max_pages is not None and page_count >= max_pages`. -/
def capReached : Option Nat → Nat → Bool
  | some n, c => n ≤ c
  | none, _ => false

/-- The body of the `iterate_tech_list` generator. `fetch` models
`get_tech_list` called with the current offset (json format, successful
responses). Per iteration: check the cap before fetching, fetch, yield the
page, increment the counter, stop on a terminal token, else continue from
the token. The result pairs the list of offsets actually requested (one
request per yielded page) with the list of yielded pages; `fuel` bounds the
recursion depth and `none` means the generator was still running when the
fuel ran out. -/
def iterate_aux (fetch : Option String → Page) (maxPages : Option Nat) :
    Option String → Nat → Nat → Option (List (Option String) × List Page)
  | _, _, 0 => none
  | off, c, fuel + 1 =>
    if capReached maxPages c then some ([], [])
    else
      let page := fetch off
      if stopToken page.nextOffset then some ([off], [page])
      else
        match iterate_aux fetch maxPages page.nextOffset (c + 1) fuel with
        | none => none
        | some (reqs, pages) => some (off :: reqs, page :: pages)

/-- `iterate_tech_list`: the generator started with no offset and a page
count of zero. -/
def iterate_tech_list (fetch : Option String → Page) (maxPages : Option Nat)
    (fuel : Nat) : Option (List (Option String) × List Page) :=
  iterate_aux fetch maxPages none 0 fuel

/-- `get_all_tech_list`: drain the iterator, extending an accumulator with
each page's `Results` in arrival order. -/
def get_all_tech_list (fetch : Option String → Page) (maxPages : Option Nat)
    (fuel : Nat) : Option (List Val) :=
  match iterate_tech_list fetch maxPages fuel with
  | none => none
  | some (_, pages) => some (pages.foldl (fun acc p => acc ++ p.results) [])

/-- A `datetime.datetime` value, identified by the epoch-seconds instant it
was built from (the conversion of `datetime.fromtimestamp` is injective on
the epoch argument, which is all the record-normalization claims need). -/
structure DateTime where
  epochSeconds : Int
deriving DecidableEq

/-- The conversion `datetime.fromtimestamp`. -/
def datetime_fromtimestamp (n : Int) : DateTime := ⟨n⟩

/-- `_parse_epoch`: `if epoch_seconds: return datetime.fromtimestamp(...)`
followed by `return None`. The truthiness test sends both an absent value
and the falsy integer zero to `None`; every other integer is converted. -/
def parse_epoch : Option Int → Option DateTime
  | none => none
  | some n => if n = 0 then none else some (datetime_fromtimestamp n)

/-- Reads the epoch integer out of an optional record field. The remote
data contract carries `FD`/`LD` as epoch-seconds integers; a value of any
other shape is outside that contract and is read as absent here. -/
def val_toEpoch : Option Val → Option Int
  | some (Val.vint n) => some n
  | _ => none

/-- A value of the normalized record produced by `parse_result`: either a
field copied (possibly absent) from the raw record, or a converted
date/time. -/
inductive OutVal where
  | plain : Option Val → OutVal
  | date : Option DateTime → OutVal

/-- `parse_result`: the normalized record, as the ordered dict literal of
the source (thirteen descriptive field names), with the `metadata` entry
appended exactly when the raw record contains a `META` key. -/
def parse_result (r : List (String × Val)) : List (String × OutVal) :=
  [("domain", OutVal.plain (lookupKey r "D")),
   ("locations_on_site", OutVal.plain (some ((lookupKey r "LOS").getD (Val.vlist [])))),
   ("first_detected", OutVal.date (parse_epoch (val_toEpoch (lookupKey r "FD")))),
   ("last_detected", OutVal.date (parse_epoch (val_toEpoch (lookupKey r "LD")))),
   ("monthly_spend_usd", OutVal.plain (lookupKey r "S")),
   ("unique_products", OutVal.plain (lookupKey r "SKU")),
   ("estimated_revenue", OutVal.plain (lookupKey r "R")),
   ("social_followers", OutVal.plain (lookupKey r "F")),
   ("employee_count", OutVal.plain (lookupKey r "E")),
   ("page_rank", OutVal.plain (lookupKey r "A")),
   ("tranco_rank", OutVal.plain (lookupKey r "Q")),
   ("majestic_rank", OutVal.plain (lookupKey r "M")),
   ("umbrella_rank", OutVal.plain (lookupKey r "U"))] ++
  (if (lookupKey r "META").isSome then
    [("metadata", OutVal.plain (lookupKey r "META"))]
  else [])

/-- The query-parameter construction of `get_keywords`: a list argument is
length-checked (at most 16 domains, else `ValueError` before any request)
and comma-joined into `LOOKUP`; a single string argument is sent verbatim
as `LOOKUP` with no validation at all. -/
def buildKeywordsParams (key : String) (domain : String ⊕ List String) :
    Except Err (List (String × String)) :=
  match domain with
  | Sum.inr l =>
    if 16 < l.length then
      Except.error (Err.valueError "Maximum 16 domains allowed per request")
    else Except.ok [("KEY", key), ("LOOKUP", String.intercalate "," l)]
  | Sum.inl s => Except.ok [("KEY", key), ("LOOKUP", s)]

/-- `get_keywords`: build the parameters (possibly failing locally), then
perform the GET and interpret the response with the shared `_make_request`
logic. -/
def get_keywords (key : String)
    (http : List (String × String) → HttpResponse)
    (domain : String ⊕ List String) (fmt : Format) : Except Err RespVal :=
  match buildKeywordsParams key domain with
  | Except.error e => Except.error e
  | Except.ok ps => make_request fmt (http ps)

/-- Structural worker for `sliceChunks`: the fuel (first list-length) bound
only drives the recursion and never fires as long as it is at least the
length of the list, which `sliceChunks` guarantees. -/
def sliceChunksF {α : Type} (b : Nat) : Nat → List α → List (List α)
  | _, [] => []
  | 0, _ :: _ => []
  | n + 1, x :: xs => ((x :: xs).take b) :: sliceChunksF b n (xs.drop (b - 1))

/-- The chunking performed by `for i in range(0, len(domains), batch_size)`
with `batch = domains[i:i + batch_size]`, for a positive step: consecutive
slices of at most `b` elements, each step consuming `b` elements (the
recursive call receives `xs.drop (b - 1)`, which equals
`(x :: xs).drop b`). The caller guards the step-zero case, where `range`
itself raises, before this runs. -/
def sliceChunks {α : Type} (b : Nat) (l : List α) : List (List α) :=
  sliceChunksF b l.length l

/-- Whether a per-call result satisfies `isinstance(result, dict)`: only a
parsed json dict does. -/
def isDictResp : RespVal → Bool
  | RespVal.jsonVal (Val.vdict _) => true
  | _ => false

/-- The batch loop of `get_keywords_batch`: issue one `get_keywords` call
per chunk in order; append a result to the aggregate only when it is a
dict; a raised exception aborts the loop immediately. Returns the list of
chunks actually submitted together with the loop's outcome. -/
def runBatches (call : List String → Except Err RespVal) :
    List (List String) → List (List String) × Except Err (List RespVal)
  | [] => ([], Except.ok [])
  | b :: bs =>
    match call b with
    | Except.error e => ([b], Except.error e)
    | Except.ok r =>
      let rest := runBatches call bs
      (b :: rest.1,
        match rest.2 with
        | Except.error e => Except.error e
        | Except.ok rs => Except.ok (if isDictResp r then r :: rs else rs))

/-- `get_keywords_batch`: reject a batch size over 16 with `ValueError`;
a batch size of zero makes `range(0, len(domains), 0)` itself raise
`ValueError` before any call is issued; otherwise run the batch loop over
the slices, calling `get_keywords` with the json default format. The first
component is the list of chunks actually submitted to `get_keywords`. -/
def get_keywords_batch (key : String)
    (http : List (String × String) → HttpResponse) (domains : List String)
    (batchSize : Nat) : List (List String) × Except Err (List RespVal) :=
  if 16 < batchSize then
    ([], Except.error (Err.valueError "Maximum batch size is 16 domains"))
  else if batchSize = 0 then
    ([], Except.error (Err.valueError "range arg 3 must not be zero"))
  else
    runBatches (fun b => get_keywords key http (Sum.inr b) Format.json)
      (sliceChunks batchSize domains)

/-- Ceiling division, the page count `ceil(L / B)` of the batching claim. -/
def ceilDiv (a b : Nat) : Nat := (a + b - 1) / b

theorem ceilDiv_step (L b : Nat) (hL : 1 ≤ L) (hb : 1 ≤ b) :
    ceilDiv L b = 1 + ceilDiv (L - b) b := by
  unfold ceilDiv
  have hb0 : 0 < b := hb
  rcases le_or_lt L b with h | h
  · have h1 : L + b - 1 = (L - 1) + b := by omega
    have h2 : L - b = 0 := by omega
    rw [h1, Nat.add_div_right _ hb0, h2]
    have h3 : (L - 1) / b = 0 := Nat.div_eq_of_lt (by omega)
    have h4 : (0 + b - 1) / b = 0 := Nat.div_eq_of_lt (by omega)
    omega
  · have h1 : L + b - 1 = (L - 1) + b := by omega
    have h2 : L - b + b - 1 = (L - b - 1) + b := by omega
    have h3 : L - 1 = (L - b - 1) + b := by omega
    rw [h1, Nat.add_div_right _ hb0, h2, Nat.add_div_right _ hb0, h3,
      Nat.add_div_right _ hb0]
    omega

theorem sliceChunksF_flatten {α : Type} (b : Nat) (hb : 1 ≤ b) :
    ∀ (n : Nat) (l : List α), l.length ≤ n → (sliceChunksF b n l).flatten = l := by
  intro n
  induction n with
  | zero =>
    intro l hl
    cases l with
    | nil => rfl
    | cons x xs => simp at hl
  | succ n ih =>
    intro l hl
    cases l with
    | nil => rfl
    | cons x xs =>
      have hdrop : xs.drop (b - 1) = (x :: xs).drop b := by
        cases b with
        | zero => omega
        | succ b => simp [List.drop_succ_cons]
      simp only [sliceChunksF, List.flatten_cons]
      rw [ih (xs.drop (b - 1)) ?_, hdrop, List.take_append_drop]
      simp only [List.length_cons] at hl
      simp only [List.length_drop]
      omega

theorem sliceChunksF_length {α : Type} (b : Nat) (hb : 1 ≤ b) :
    ∀ (n : Nat) (l : List α), l.length ≤ n →
      (sliceChunksF b n l).length = ceilDiv l.length b := by
  intro n
  induction n with
  | zero =>
    intro l hl
    cases l with
    | nil =>
      simp only [sliceChunksF, List.length_nil]
      exact (Nat.div_eq_of_lt (by omega)).symm
    | cons x xs => simp at hl
  | succ n ih =>
    intro l hl
    cases l with
    | nil =>
      simp only [sliceChunksF, List.length_nil]
      exact (Nat.div_eq_of_lt (by omega)).symm
    | cons x xs =>
      simp only [sliceChunksF, List.length_cons]
      have hfuel : (xs.drop (b - 1)).length ≤ n := by
        simp only [List.length_cons] at hl
        simp only [List.length_drop]
        omega
      rw [ih (xs.drop (b - 1)) hfuel]
      rw [ceilDiv_step (xs.length + 1) b (by omega) hb]
      have hlen : (xs.drop (b - 1)).length = xs.length + 1 - b := by
        simp [List.length_drop]; omega
      rw [hlen]
      omega

theorem sliceChunksF_mem_length {α : Type} (b : Nat) :
    ∀ (n : Nat) (l : List α) (c : List α), c ∈ sliceChunksF b n l →
      c.length ≤ b := by
  intro n
  induction n with
  | zero =>
    intro l c hc
    cases l with
    | nil => simp [sliceChunksF] at hc
    | cons x xs => simp [sliceChunksF] at hc
  | succ n ih =>
    intro l c hc
    cases l with
    | nil => simp [sliceChunksF] at hc
    | cons x xs =>
      simp only [sliceChunksF, List.mem_cons] at hc
      rcases hc with hc | hc
      · subst hc
        simp only [List.length_take]
        exact Nat.min_le_left _ _
      · exact ih _ _ hc

theorem sliceChunks_flatten {α : Type} (b : Nat) (hb : 1 ≤ b) (l : List α) :
    (sliceChunks b l).flatten = l :=
  sliceChunksF_flatten b hb l.length l (Nat.le_refl _)

theorem sliceChunks_length {α : Type} (b : Nat) (hb : 1 ≤ b) (l : List α) :
    (sliceChunks b l).length = ceilDiv l.length b :=
  sliceChunksF_length b hb l.length l (Nat.le_refl _)

theorem sliceChunks_mem_length {α : Type} (b : Nat) (l c : List α)
    (hc : c ∈ sliceChunks b l) : c.length ≤ b :=
  sliceChunksF_mem_length b l.length l c hc

theorem runBatches_of_ok (call : List String → Except Err RespVal) :
    ∀ bs : List (List String), (∀ b ∈ bs, ∃ v, call b = Except.ok v) →
      (runBatches call bs).1 = bs ∧
        (runBatches call bs).2 = Except.ok (bs.filterMap (fun b =>
          match call b with
          | Except.ok r => if isDictResp r then some r else none
          | Except.error _ => none)) := by
  intro bs
  induction bs with
  | nil => intro _; exact ⟨rfl, rfl⟩
  | cons b bs ih =>
    intro h
    obtain ⟨v, hv⟩ := h b (List.mem_cons_self b bs)
    obtain ⟨ih1, ih2⟩ := ih (fun x hx => h x (List.mem_cons_of_mem b hx))
    simp only [runBatches, hv, List.filterMap_cons, ih1, ih2]
    cases hd : isDictResp v <;> simp [hd]

theorem runBatches_ok_inv (call : List String → Except Err RespVal) :
    ∀ (bs : List (List String)) (rs : List RespVal),
      (runBatches call bs).2 = Except.ok rs →
      (∀ b ∈ bs, ∃ v, call b = Except.ok v) ∧
        rs = bs.filterMap (fun b =>
          match call b with
          | Except.ok r => if isDictResp r then some r else none
          | Except.error _ => none) := by
  intro bs
  induction bs with
  | nil =>
    intro rs h
    simp only [runBatches] at h
    injection h with h
    exact ⟨fun b hb => absurd hb (List.not_mem_nil b), h.symm⟩
  | cons b bs ih =>
    intro rs h
    cases hc : call b with
    | error e => simp only [runBatches, hc] at h; exact Except.noConfusion h
    | ok v =>
      simp only [runBatches, hc] at h
      cases hr : (runBatches call bs).2 with
      | error e => rw [hr] at h; exact Except.noConfusion h
      | ok rs2 =>
        rw [hr] at h
        injection h with h
        obtain ⟨hall, hrs2⟩ := ih rs2 hr
        refine ⟨?_, ?_⟩
        · intro x hx
          rcases List.mem_cons.mp hx with hx | hx
          · exact ⟨v, hx ▸ hc⟩
          · exact hall x hx
        · simp only [List.filterMap_cons, hc]
          cases hd : isDictResp v <;> simp only [hd] at h ⊢ <;>
            simp [← h, hrs2]

theorem iterate_aux_inv (fetch : Option String → Page) (mp : Option Nat) :
    ∀ (fuel : Nat) (off : Option String) (c : Nat)
      (reqs : List (Option String)) (pages : List Page),
      iterate_aux fetch mp off c fuel = some (reqs, pages) →
      reqs.length = pages.length ∧
        ∀ p ∈ pages.dropLast, stopToken p.nextOffset = false := by
  intro fuel
  induction fuel with
  | zero => intro off c reqs pages h; exact Option.noConfusion h
  | succ fuel ih =>
    intro off c reqs pages h
    simp only [iterate_aux] at h
    by_cases hcap : capReached mp c = true
    · rw [if_pos hcap] at h
      injection h with h
      rw [Prod.mk.injEq] at h
      obtain ⟨h1, h2⟩ := h
      subst h1; subst h2
      exact ⟨rfl, fun p hp => absurd hp (List.not_mem_nil p)⟩
    · rw [if_neg hcap] at h
      by_cases hst : stopToken (fetch off).nextOffset = true
      · rw [if_pos hst] at h
        injection h with h
        rw [Prod.mk.injEq] at h
        obtain ⟨h1, h2⟩ := h
        subst h1; subst h2
        exact ⟨rfl, fun p hp => absurd hp (List.not_mem_nil p)⟩
      · rw [if_neg hst] at h
        cases hrec : iterate_aux fetch mp (fetch off).nextOffset (c + 1) fuel with
        | none => rw [hrec] at h; exact Option.noConfusion h
        | some pr =>
          obtain ⟨reqs2, pages2⟩ := pr
          rw [hrec] at h
          injection h with h
          rw [Prod.mk.injEq] at h
          obtain ⟨h1, h2⟩ := h
          subst h1; subst h2
          obtain ⟨ihl, ihp⟩ := ih _ _ _ _ hrec
          refine ⟨by simp [ihl], ?_⟩
          cases pages2 with
          | nil => intro p hp; simp [List.dropLast] at hp
          | cons q qs =>
            intro p hp
            rw [List.dropLast_cons₂] at hp
            rcases List.mem_cons.mp hp with hp | hp
            · subst hp
              exact Bool.not_eq_true _ ▸ (by simpa using hst)
            · exact ihp p hp

theorem iterate_aux_cap (fetch : Option String → Page) (N : Nat) :
    ∀ (fuel c : Nat) (off : Option String), N - c < fuel →
      ∃ reqs pages, iterate_aux fetch (some N) off c fuel = some (reqs, pages) ∧
        pages.length ≤ N - c := by
  intro fuel
  induction fuel with
  | zero => intro c off h; omega
  | succ fuel ih =>
    intro c off h
    simp only [iterate_aux]
    by_cases hcap : capReached (some N) c = true
    · rw [if_pos hcap]
      exact ⟨[], [], rfl, by simp⟩
    · rw [if_neg hcap]
      have hc : c < N := by
        simp only [capReached, decide_eq_true_eq] at hcap
        omega
      by_cases hst : stopToken (fetch off).nextOffset = true
      · rw [if_pos hst]
        exact ⟨[off], [fetch off], rfl, by simp; omega⟩
      · rw [if_neg hst]
        obtain ⟨reqs, pages, heq, hlen⟩ :=
          ih (c + 1) (fetch off).nextOffset (by omega)
        rw [heq]
        exact ⟨off :: reqs, fetch off :: pages, rfl, by simp; omega⟩

theorem foldl_append_eq_flatten (ps : List Page) :
    ∀ acc : List Val,
      ps.foldl (fun a p => a ++ p.results) acc = acc ++ (ps.map Page.results).flatten := by
  induction ps with
  | nil => intro acc; simp
  | cons p ps ih => intro acc; simp [ih, List.append_assoc]

/-- A fixed remote page used to instantiate the pagination theorems: its
continuation token is the terminal sentinel. -/
def pageEND : Page := { nextOffset := some "END", results := [Val.vint 1, Val.vint 2] }

/-- A constant fetch function: every request returns `pageEND`. -/
def fetchConst : Option String → Page := fun _ => pageEND

/-- A network returning an empty json object on every request: the
interpreted result is a dict with no `Errors` field. -/
def httpOkDict : List (String × String) → HttpResponse :=
  fun _ => { text := "", jsonParse := some (Val.vdict []) }

/-- A response whose body is the error payload of the spec example. -/
def errResp : HttpResponse :=
  { text := "\x7b\"Errors\": \"invalid key\"\x7d",
    jsonParse := some (Val.vdict [("Errors", Val.vstr "invalid key")]) }

/-- C1: `iterate_tech_list` stops after yielding a page whose continuation
token is absent, falsy, or the sentinel "END" (every yielded page except
possibly the last has a non-terminal token, and exactly one request is
issued per yielded page); with `max_pages = N` it yields at most N pages
regardless of token values; and the cap is checked before each fetch, so
`max_pages = 0` yields no pages and issues no request. -/
theorem iterate_tech_list_pagination :
    (∀ (fetch : Option String → Page) (mp : Option Nat) (off : Option String)
        (c fuel : Nat) (reqs : List (Option String)) (pages : List Page),
        iterate_aux fetch mp off c fuel = some (reqs, pages) →
        reqs.length = pages.length ∧
          ∀ p ∈ pages.dropLast, stopToken p.nextOffset = false) ∧
    (∀ (fetch : Option String → Page) (N fuel : Nat), N < fuel →
        ∃ reqs pages,
          iterate_tech_list fetch (some N) fuel = some (reqs, pages) ∧
            pages.length ≤ N) ∧
    (∀ (fetch : Option String → Page) (fuel : Nat), 0 < fuel →
        iterate_tech_list fetch (some 0) fuel = some ([], [])) := by
  refine ⟨fun fetch mp off c fuel => iterate_aux_inv fetch mp fuel off c, ?_, ?_⟩
  · intro fetch N fuel h
    obtain ⟨reqs, pages, heq, hlen⟩ :=
      iterate_aux_cap fetch N fuel 0 none (by omega)
    exact ⟨reqs, pages, heq, by omega⟩
  · intro fetch fuel h
    cases fuel with
    | zero => omega
    | succ fuel => rfl

/-- Witness for C1: with `max_pages = 0` no page is yielded and no request
is issued, and with `max_pages = 5` at most five pages come back. -/
theorem iterate_tech_list_pagination_witness :
    iterate_tech_list fetchConst (some 0) 3 = some ([], []) ∧
      ∃ reqs pages,
        iterate_tech_list fetchConst (some 5) 6 = some (reqs, pages) ∧
          pages.length ≤ 5 :=
  ⟨iterate_tech_list_pagination.2.2 fetchConst 3 (by decide),
    iterate_tech_list_pagination.2.1 fetchConst 5 6 (by decide)⟩

/-- C4: the sequence returned by `get_all_tech_list` is the concatenation,
in order, of each page's `Results` sequence produced by
`iterate_tech_list` with the same arguments. -/
theorem get_all_tech_list_eq_flatten (fetch : Option String → Page)
    (mp : Option Nat) (fuel : Nat) :
    get_all_tech_list fetch mp fuel =
      Option.map (fun pr => (pr.2.map Page.results).flatten)
        (iterate_tech_list fetch mp fuel) := by
  unfold get_all_tech_list
  cases h : iterate_tech_list fetch mp fuel with
  | none => rfl
  | some pr =>
    obtain ⟨reqs, pages⟩ := pr
    simp [foldl_append_eq_flatten]

theorem parse_result_first_detected (r : List (String × Val)) :
    lookupKey (parse_result r) "first_detected" =
      some (OutVal.date (parse_epoch (val_toEpoch (lookupKey r "FD")))) := rfl

theorem parse_result_last_detected (r : List (String × Val)) :
    lookupKey (parse_result r) "last_detected" =
      some (OutVal.date (parse_epoch (val_toEpoch (lookupKey r "LD")))) := rfl

theorem parse_result_keys (r : List (String × Val)) :
    (parse_result r).map Prod.fst =
      ["domain", "locations_on_site", "first_detected", "last_detected",
       "monthly_spend_usd", "unique_products", "estimated_revenue",
       "social_followers", "employee_count", "page_rank", "tranco_rank",
       "majestic_rank", "umbrella_rank"] ++
        (if (lookupKey r "META").isSome then ["metadata"] else []) := by
  unfold parse_result
  by_cases hm : (lookupKey r "META").isSome <;> simp [hm]

/-- C3 counterexample: the raw record carrying the valid epoch integer 0 in
`FD` is normalized to an absent first-detection date, not to the date/time
corresponding to epoch 0 (the truthiness test in `_parse_epoch` treats 0
like an absent value). -/
theorem parse_epoch_zero_counterexample :
    lookupKey (parse_result [("FD", Val.vint 0)]) "first_detected" =
        some (OutVal.date none) ∧
      OutVal.date none ≠ OutVal.date (some (datetime_fromtimestamp 0)) := by
  refine ⟨rfl, ?_⟩
  intro h
  injection h with h
  exact Option.noConfusion h

/-- C3 as amended: `parse_result` maps an absent (or non-integer) epoch in
`FD`/`LD` to an absent date/time, maps every nonzero epoch integer to the
corresponding date/time, maps the falsy epoch 0 to an absent date/time as
well, never produces the zero-date placeholder, and the normalized record
has no field name collisions. -/
theorem parse_result_normalization (r : List (String × Val)) :
    ((parse_result r).map Prod.fst).Nodup ∧
    (val_toEpoch (lookupKey r "FD") = none →
      lookupKey (parse_result r) "first_detected" = some (OutVal.date none)) ∧
    (∀ n : Int, n ≠ 0 → lookupKey r "FD" = some (Val.vint n) →
      lookupKey (parse_result r) "first_detected" =
        some (OutVal.date (some (datetime_fromtimestamp n)))) ∧
    (val_toEpoch (lookupKey r "LD") = none →
      lookupKey (parse_result r) "last_detected" = some (OutVal.date none)) ∧
    (∀ n : Int, n ≠ 0 → lookupKey r "LD" = some (Val.vint n) →
      lookupKey (parse_result r) "last_detected" =
        some (OutVal.date (some (datetime_fromtimestamp n)))) ∧
    (lookupKey r "FD" = some (Val.vint 0) →
      lookupKey (parse_result r) "first_detected" = some (OutVal.date none)) ∧
    (∀ o : Option Int, parse_epoch o ≠ some (datetime_fromtimestamp 0)) := by
  refine ⟨?_, ?_, ?_, ?_, ?_, ?_, ?_⟩
  · rw [parse_result_keys]
    by_cases hm : (lookupKey r "META").isSome <;> simp [hm]
  · intro h
    rw [parse_result_first_detected, h]
    rfl
  · intro n hn h
    rw [parse_result_first_detected, h]
    simp [val_toEpoch, parse_epoch, hn]
  · intro h
    rw [parse_result_last_detected, h]
    rfl
  · intro n hn h
    rw [parse_result_last_detected, h]
    simp [val_toEpoch, parse_epoch, hn]
  · intro h
    rw [parse_result_first_detected, h]
    rfl
  · intro o h
    cases o with
    | none => exact Option.noConfusion h
    | some n =>
      simp only [parse_epoch] at h
      by_cases hn : n = 0
      · rw [if_pos hn] at h
        exact Option.noConfusion h
      · rw [if_neg hn] at h
        injection h with h
        exact hn (congrArg DateTime.epochSeconds h)

/-- Witness for C3 (amended): a record with `FD = 100` and `LD` absent
normalizes to the epoch-100 date/time and an absent date/time. -/
theorem parse_result_normalization_witness :
    lookupKey (parse_result [("FD", Val.vint 100)]) "first_detected" =
        some (OutVal.date (some (datetime_fromtimestamp 100))) ∧
      lookupKey (parse_result [("FD", Val.vint 100)]) "last_detected" =
        some (OutVal.date none) :=
  ⟨(parse_result_normalization [("FD", Val.vint 100)]).2.2.1 100 (by decide) rfl,
    (parse_result_normalization [("FD", Val.vint 100)]).2.2.2.1 rfl⟩

/-- C5 counterexample: `since` set to the falsy empty string together with
`include_all = True` does not raise: the parameters are built (with
`ALL=yes` and no `SINCE`), the request is issued and its response is
returned, because the mutual-exclusion check sits under the truthiness test
`if since:`. -/
theorem since_empty_include_all_counterexample :
    buildTechParams "key" "Shopify" false none none (some "") true =
        Except.ok [("KEY", "key"), ("TECH", "Shopify"), ("ALL", "yes")] ∧
      get_tech_list "key" httpOkDict "Shopify" false none none (some "") true
          Format.json =
        Except.ok (RespVal.jsonVal (Val.vdict [])) :=
  ⟨rfl, rfl⟩

/-- C5 as amended: for every truthy (non-empty) `since` together with
`include_all = True`, `get_tech_list` raises `ValueError` during parameter
construction, uniformly in the network function, so before any request is
issued. -/
theorem since_include_all_validation (key : String)
    (http : List (String × String) → HttpResponse) (tech : String)
    (includeMeta : Bool) (country : Option CountryArg)
    (offset : Option String) (s : String) (fmt : Format) (hs : s ≠ "") :
    buildTechParams key tech includeMeta country offset (some s) true =
        Except.error
          (Err.valueError "Cannot use since parameter with include_all=True") ∧
      get_tech_list key http tech includeMeta country offset (some s) true fmt =
        Except.error
          (Err.valueError "Cannot use since parameter with include_all=True") := by
  have h1 : buildTechParams key tech includeMeta country offset (some s) true =
      Except.error
        (Err.valueError "Cannot use since parameter with include_all=True") := by
    simp [buildTechParams, hs]
  exact ⟨h1, by simp [get_tech_list, h1]⟩

/-- Witness for C5 (amended): a concrete dated filter with the include-all
flag fails locally. -/
theorem since_include_all_validation_witness :
    get_tech_list "key" httpOkDict "Shopify" false none none
        (some "2024-01-01") true Format.json =
      Except.error
        (Err.valueError "Cannot use since parameter with include_all=True") :=
  (since_include_all_validation "key" httpOkDict "Shopify" false none none
    "2024-01-01" Format.json (by decide)).2

theorem buildTechParams_ok_shape (key tech : String) (includeMeta : Bool)
    (country : Option CountryArg) (offset : Option String)
    (since : Option String) (includeAll : Bool) (ps : List (String × String))
    (h : buildTechParams key tech includeMeta country offset since includeAll =
      Except.ok ps) :
    ∃ tail, ps = [("KEY", key), ("TECH", hyphenate tech)] ++
        metaParam includeMeta ++ countryParam country ++ offsetParam offset ++
        tail ∧
      lookupKey tail "COUNTRY" = none := by
  cases since with
  | none =>
    simp only [buildTechParams] at h
    injection h with h
    refine ⟨allParam includeAll, by simp [← h], ?_⟩
    cases includeAll <;> simp [allParam, lookupKey]
  | some s =>
    by_cases hs : s = ""
    · simp only [buildTechParams, if_pos hs] at h
      injection h with h
      refine ⟨allParam includeAll, by simp [← h], ?_⟩
      cases includeAll <;> simp [allParam, lookupKey]
    · cases includeAll with
      | true => simp [buildTechParams, hs] at h
      | false =>
        simp only [buildTechParams, if_neg hs, if_neg (Bool.false_ne_true ∘ id)] at h
        injection h with h
        refine ⟨[("SINCE", s)] ++ allParam false, by simp [← h], ?_⟩
        simp [allParam, lookupKey]

/-- C9: whenever `get_tech_list` builds its parameters successfully, the
`TECH` parameter is the technology name with spaces normalized to hyphens;
a truthy single country code is sent as-is in `COUNTRY`; and a truthy
country list is serialized as one comma-joined `COUNTRY` string. -/
theorem tech_country_param_normalization (key tech : String)
    (includeMeta : Bool) (country : Option CountryArg)
    (offset : Option String) (since : Option String) (includeAll : Bool)
    (ps : List (String × String))
    (h : buildTechParams key tech includeMeta country offset since includeAll =
      Except.ok ps) :
    lookupKey ps "TECH" = some (hyphenate tech) ∧
    (∀ c, c ≠ "" → country = some (CountryArg.one c) →
      lookupKey ps "COUNTRY" = some c) ∧
    (∀ cs, cs ≠ [] → country = some (CountryArg.many cs) →
      lookupKey ps "COUNTRY" = some (String.intercalate "," cs)) := by
  obtain ⟨tail, hps, htail⟩ :=
    buildTechParams_ok_shape key tech includeMeta country offset since
      includeAll ps h
  subst hps
  refine ⟨?_, ?_, ?_⟩
  · simp [lookupKey]
  · intro c hc hcountry
    subst hcountry
    simp only [countryParam, if_neg hc]
    cases includeMeta <;> cases offset <;>
      simp [metaParam, offsetParam, lookupKey_append, lookupKey, htail]
  · intro cs hcs hcountry
    subst hcountry
    simp only [countryParam, if_neg hcs]
    cases includeMeta <;> cases offset <;>
      simp [metaParam, offsetParam, lookupKey_append, lookupKey, htail]

/-- Witness for C9: `fetchPage("Shopify App", country="US")` sends
`TECH=Shopify-App` and `COUNTRY=US`; a two-element country list is sent
comma-joined. -/
theorem tech_country_param_normalization_witness :
    (∃ ps, buildTechParams "key" "Shopify App" false
        (some (CountryArg.one "US")) none none false = Except.ok ps ∧
      lookupKey ps "TECH" = some "Shopify-App" ∧
      lookupKey ps "COUNTRY" = some "US") ∧
    (∃ ps, buildTechParams "key" "Shopify" false
        (some (CountryArg.many ["US", "CA"])) none none false =
          Except.ok ps ∧
      lookupKey ps "COUNTRY" = some "US,CA") := by
  constructor
  · refine ⟨_, rfl, ?_, ?_⟩
    · have h := (tech_country_param_normalization "key" "Shopify App" false
        (some (CountryArg.one "US")) none none false _ rfl).1
      rw [h]
      rfl
    · exact (tech_country_param_normalization "key" "Shopify App" false
        (some (CountryArg.one "US")) none none false _ rfl).2.1 "US"
          (by decide) rfl
  · refine ⟨_, rfl, ?_⟩
    have h := (tech_country_param_normalization "key" "Shopify" false
      (some (CountryArg.many ["US", "CA"])) none none false _ rfl).2.2
      ["US", "CA"] (by decide) rfl
    rw [h]
    rfl

/-- C6: under the json format, a parsed body that is a dict with an
`Errors` field raises `BuiltWithAPIError` carrying that field's content,
any other parsed body is returned as the parsed structure; under every
non-json format the raw body text is returned unchanged with no error
inspection, so the same `Errors` body raises nothing. -/
theorem make_request_errors_handling (resp : HttpResponse) :
    (∀ fields e, resp.jsonParse = some (Val.vdict fields) →
        lookupKey fields "Errors" = some e →
        make_request Format.json resp =
          Except.error (Err.builtWithAPIError e)) ∧
    (∀ fields, resp.jsonParse = some (Val.vdict fields) →
        lookupKey fields "Errors" = none →
        make_request Format.json resp =
          Except.ok (RespVal.jsonVal (Val.vdict fields))) ∧
    (∀ v, resp.jsonParse = some v → (∀ fields, v ≠ Val.vdict fields) →
        make_request Format.json resp = Except.ok (RespVal.jsonVal v)) ∧
    (∀ fmt, fmt ≠ Format.json →
        make_request fmt resp = Except.ok (RespVal.rawText resp.text)) := by
  refine ⟨?_, ?_, ?_, ?_⟩
  · intro fields e hp he
    simp [make_request, hp, he]
  · intro fields hp he
    simp [make_request, hp, he]
  · intro v hp hv
    cases v <;> simp [make_request, hp]
    exact absurd rfl (hv _)
  · intro fmt hfmt
    cases fmt <;> simp [make_request] at hfmt ⊢

/-- Witness for C6: the body carrying `Errors: invalid key` raises under
the json format and is returned as raw text under the xml format. -/
theorem make_request_errors_handling_witness :
    make_request Format.json errResp =
        Except.error (Err.builtWithAPIError (Val.vstr "invalid key")) ∧
      make_request Format.xml errResp =
        Except.ok (RespVal.rawText errResp.text) :=
  ⟨(make_request_errors_handling errResp).1
      [("Errors", Val.vstr "invalid key")] (Val.vstr "invalid key") rfl rfl,
    (make_request_errors_handling errResp).2.2.2 Format.xml (by decide)⟩

/-- C7: a domain list with more than 16 elements makes `get_keywords` raise
`ValueError` during parameter construction, uniformly in the network
function, so before any request is issued. -/
theorem get_keywords_limit (key : String)
    (http : List (String × String) → HttpResponse) (fmt : Format)
    (l : List String) (h : 16 < l.length) :
    buildKeywordsParams key (Sum.inr l) =
        Except.error (Err.valueError "Maximum 16 domains allowed per request") ∧
      get_keywords key http (Sum.inr l) fmt =
        Except.error (Err.valueError "Maximum 16 domains allowed per request") := by
  have h1 : buildKeywordsParams key (Sum.inr l) =
      Except.error (Err.valueError "Maximum 16 domains allowed per request") := by
    simp [buildKeywordsParams, h]
  exact ⟨h1, by simp [get_keywords, h1]⟩

/-- Witness for C7: a 17-domain list fails locally. -/
theorem get_keywords_limit_witness :
    get_keywords "key" httpOkDict (Sum.inr (List.replicate 17 "d"))
        Format.json =
      Except.error (Err.valueError "Maximum 16 domains allowed per request") :=
  (get_keywords_limit "key" httpOkDict Format.json (List.replicate 17 "d")
    (by decide)).2

/-- A single-string lookup argument that encodes 18 comma-separated
domains: as a string it is sent verbatim, with no count validation. -/
def longLookup : String :=
  "a1,a2,a3,a4,a5,a6,a7,a8,a9,a10,a11,a12,a13,a14,a15,a16,a17,a18"

/-- C10: `get_keywords` raises `ValueError` exactly when its domain
argument is a list with more than 16 elements; a single string is sent
verbatim as the `LOOKUP` parameter with no count validation, commas and
all. -/
theorem get_keywords_valueError_iff (key : String)
    (http : List (String × String) → HttpResponse) (fmt : Format)
    (domain : String ⊕ List String) :
    (∀ s, domain = Sum.inl s →
        buildKeywordsParams key domain =
          Except.ok [("KEY", key), ("LOOKUP", s)]) ∧
    ((∃ m, get_keywords key http domain fmt =
        Except.error (Err.valueError m)) ↔
      ∃ l, domain = Sum.inr l ∧ 16 < l.length) := by
  constructor
  · intro s hs
    subst hs
    rfl
  · constructor
    · rintro ⟨m, hm⟩
      cases domain with
      | inl s =>
        simp only [get_keywords, buildKeywordsParams] at hm
        exact absurd hm (make_request_no_valueError _ _ _)
      | inr l =>
        by_cases h : 16 < l.length
        · exact ⟨l, rfl, h⟩
        · simp only [get_keywords, buildKeywordsParams, if_neg h] at hm
          exact absurd hm (make_request_no_valueError _ _ _)
    · rintro ⟨l, hl, h⟩
      subst hl
      exact ⟨"Maximum 16 domains allowed per request",
        (get_keywords_limit key http fmt l h).2⟩

/-- Witness for C10: the 18-domain comma string goes through verbatim and
raises no `ValueError`. -/
theorem get_keywords_valueError_iff_witness :
    buildKeywordsParams "key" (Sum.inl longLookup) =
        Except.ok [("KEY", "key"), ("LOOKUP", longLookup)] ∧
      ¬ ∃ m, get_keywords "key" httpOkDict (Sum.inl longLookup) Format.json =
          Except.error (Err.valueError m) := by
  constructor
  · exact (get_keywords_valueError_iff "key" httpOkDict Format.json
      (Sum.inl longLookup)).1 longLookup rfl
  · intro hex
    obtain ⟨l, hl, _⟩ := (get_keywords_valueError_iff "key" httpOkDict
      Format.json (Sum.inl longLookup)).2.mp hex
    exact Sum.noConfusion hl

/-- C2 counterexample: batch size 0 satisfies the bound `B ≤ 16`, but
`get_keywords_batch` issues no call at all (the submitted batches do not
concatenate to the input) and raises the `range` step-zero `ValueError`
instead of returning a batched aggregate. -/
theorem get_keywords_batch_zero_counterexample :
    (0 : Nat) ≤ 16 ∧
      (get_keywords_batch "key" httpOkDict ["a"] 0).1 = [] ∧
      (get_keywords_batch "key" httpOkDict ["a"] 0).1.flatten ≠ ["a"] ∧
      (get_keywords_batch "key" httpOkDict ["a"] 0).2 =
        Except.error (Err.valueError "range arg 3 must not be zero") := by
  refine ⟨by decide, rfl, ?_, rfl⟩
  decide

/-- C2 as amended: for every domain list of length L and every batch size B
with 1 ≤ B ≤ 16, when every per-chunk call succeeds,
`get_keywords_batch` submits exactly ceil(L/B) batches to `get_keywords`,
each carrying at most B domains, and the concatenation of the submitted
batches equals the input list. -/
theorem get_keywords_batch_chunking (key : String)
    (http : List (String × String) → HttpResponse) (domains : List String)
    (B : Nat) (hB1 : 1 ≤ B) (hB16 : B ≤ 16)
    (hok : ∀ ps, ∃ v, make_request Format.json (http ps) = Except.ok v) :
    (get_keywords_batch key http domains B).1 = sliceChunks B domains ∧
      (get_keywords_batch key http domains B).1.length =
        ceilDiv domains.length B ∧
      (∀ c ∈ (get_keywords_batch key http domains B).1, c.length ≤ B) ∧
      (get_keywords_batch key http domains B).1.flatten = domains ∧
      ∃ rs, (get_keywords_batch key http domains B).2 = Except.ok rs := by
  have hnot : ¬ 16 < B := by omega
  have hne : B ≠ 0 := by omega
  have hcall : ∀ b ∈ sliceChunks B domains, ∃ v,
      get_keywords key http (Sum.inr b) Format.json = Except.ok v := by
    intro b hb
    have hlen : b.length ≤ 16 :=
      le_trans (sliceChunks_mem_length B domains b hb) hB16
    have hnl : ¬ 16 < b.length := by omega
    simp only [get_keywords, buildKeywordsParams, if_neg hnl]
    exact hok _
  have hrun := runBatches_of_ok
    (fun b => get_keywords key http (Sum.inr b) Format.json)
    (sliceChunks B domains) hcall
  have hgb : get_keywords_batch key http domains B =
      runBatches (fun b => get_keywords key http (Sum.inr b) Format.json)
        (sliceChunks B domains) := by
    simp [get_keywords_batch, hnot, hne]
  rw [hgb]
  refine ⟨hrun.1, ?_, ?_, ?_, ⟨_, hrun.2⟩⟩
  · rw [hrun.1]
    exact sliceChunks_length B hB1 domains
  · rw [hrun.1]
    exact fun c hc => sliceChunks_mem_length B domains c hc
  · rw [hrun.1]
    exact sliceChunks_flatten B hB1 domains

/-- Witness for C2 (amended): three domains with batch size two go out as
two batches, in order, covering the input. -/
theorem get_keywords_batch_chunking_witness :
    (get_keywords_batch "key" httpOkDict ["a", "b", "c"] 2).1 =
        [["a", "b"], ["c"]] ∧
      (get_keywords_batch "key" httpOkDict ["a", "b", "c"] 2).1.flatten =
        ["a", "b", "c"] ∧
      (get_keywords_batch "key" httpOkDict ["a", "b", "c"] 2).1.length =
        ceilDiv 3 2 := by
  have h := get_keywords_batch_chunking "key" httpOkDict ["a", "b", "c"] 2
    (by decide) (by decide) (fun ps => ⟨RespVal.jsonVal (Val.vdict []), rfl⟩)
  exact ⟨h.1.trans rfl, h.2.2.2.1, h.2.1⟩

/-- C8: whenever `get_keywords_batch` returns normally, every element of
the aggregate is a structured dict result; a chunk whose per-call result is
not a dict is silently omitted (the aggregate is exactly the dict-filtered
sequence of per-chunk results); and no errors are swallowed (a normal
return means every per-chunk call succeeded). -/
theorem get_keywords_batch_dict_filter (key : String)
    (http : List (String × String) → HttpResponse) (domains : List String)
    (B : Nat) (rs : List RespVal)
    (h : (get_keywords_batch key http domains B).2 = Except.ok rs) :
    (∀ r ∈ rs, isDictResp r = true) ∧
      (∀ b ∈ sliceChunks B domains, ∃ v,
          get_keywords key http (Sum.inr b) Format.json = Except.ok v) ∧
      rs = (sliceChunks B domains).filterMap (fun b =>
        match get_keywords key http (Sum.inr b) Format.json with
        | Except.ok r => if isDictResp r then some r else none
        | Except.error _ => none) := by
  by_cases h16 : 16 < B
  · simp [get_keywords_batch, h16] at h
  by_cases h0 : B = 0
  · simp [get_keywords_batch, h16, h0] at h
  simp only [get_keywords_batch, if_neg h16, if_neg h0] at h
  obtain ⟨hall, hrs⟩ := runBatches_ok_inv _ _ _ h
  refine ⟨?_, hall, hrs⟩
  intro r hr
  rw [hrs] at hr
  obtain ⟨b, hb, hf⟩ := List.mem_filterMap.mp hr
  cases hc : get_keywords key http (Sum.inr b) Format.json with
  | error e =>
    rw [hc] at hf
    exact Option.noConfusion hf
  | ok v =>
    rw [hc] at hf
    have hf2 : (if isDictResp v = true then some v else none) = some r := hf
    by_cases hd : isDictResp v = true
    · rw [if_pos hd] at hf2
      injection hf2 with hf2
      subst hf2
      exact hd
    · rw [if_neg hd] at hf2
      exact Option.noConfusion hf2

/-- Witness for C8: a one-chunk run returns one dict result and every
element of the aggregate is a dict. -/
theorem get_keywords_batch_dict_filter_witness :
    (get_keywords_batch "key" httpOkDict ["a"] 1).2 =
        Except.ok [RespVal.jsonVal (Val.vdict [])] ∧
      ∀ r ∈ [RespVal.jsonVal (Val.vdict [])], isDictResp r = true :=
  ⟨rfl, (get_keywords_batch_dict_filter "key" httpOkDict ["a"] 1
    [RespVal.jsonVal (Val.vdict [])] rfl).1⟩

end BuiltWith
